import Mathlib

/-!
Verification of the TUI box generator (`scripts/tui_box_generator.py`).

Python strings are modelled as `List Char`; the ten non-negative integer
configuration fields of `TUIBox` are modelled as `Nat` (the spec's data
model restricts them to non-negative integers).  The external `wcwidth`
library is modelled by a character-class table (`wcwidth`, `wcswidth`)
following the library's documented contract: control characters other than
NUL are non-printable (width `-1`), zero-width combining characters
measure 0 columns, wide CJK/emoji characters measure 2, every other
character measures 1, and `wcswidth` is `-1` when any character of the
string is non-printable and the sum of the character widths otherwise.
`HAS_WCWIDTH` is modelled as `true` (the library imports successfully).
-/

namespace TUIBoxGen

/-- Python `str`, modelled as a list of characters. -/
abbrev PyStr := List Char

/-- The ESC character `\x1b` that starts an ANSI escape sequence. -/
def ESC : Char := '\x1b'

/-- A character matched by the `[0-9;]` class of the ANSI regex of
`TUIBox.get_visual_width` (tui_box_generator.py:104). -/
def isParamChar (c : Char) : Bool := ('0' ≤ c && c ≤ '9') || c == ';'

/-- Attempt to match the part of the regex `\x1b\[[0-9;]*m` that follows the
`ESC` at the front of `cs`: a `[`, then a maximal run of `[0-9;]` parameter
characters, then a literal `m`.  On success return the input remaining
after the matched sequence. -/
def matchSGR (cs : PyStr) : Option PyStr :=
  match cs with
  | [] => none
  | c :: rest =>
    let d := rest.dropWhile isParamChar
    if c = '[' ∧ d.head? = some 'm' then some d.tail else none

/-- Scanner for `re.sub(r'\x1b\[[0-9;]*m', '', text)`: move left to right;
at each `ESC` try to match the rest of the pattern, dropping the matched
sequence on success and otherwise emitting the character and continuing one
position further (as the regex engine does after a failed match attempt;
no match can start at a non-`ESC` character).  The fuel argument,
instantiated with the length of the input by `ansiStrip`, only bounds the
recursion: every step consumes at least one input character. -/
def ansiStripGo : Nat → PyStr → PyStr
  | 0, s => s
  | _ + 1, [] => []
  | fuel + 1, c :: cs =>
    if c = ESC then
      match matchSGR cs with
      | some tail => ansiStripGo fuel tail
      | none => c :: ansiStripGo fuel cs
    else c :: ansiStripGo fuel cs

/-- `ansi_pattern.sub('', text)` from `TUIBox.get_visual_width`
(tui_box_generator.py:104-105). -/
def ansiStrip (s : PyStr) : PyStr := ansiStripGo s.length s

/-- Wide (two-column) characters of the modelled `wcwidth` table: CJK
blocks, Hangul, fullwidth forms and the main emoji planes. -/
def isWideChar (c : Char) : Bool :=
  let n := c.toNat
  (0x1100 ≤ n && n ≤ 0x115F) ||
  (0x2E80 ≤ n && n ≤ 0x303E) ||
  (0x3041 ≤ n && n ≤ 0x33FF) ||
  (0x3400 ≤ n && n ≤ 0x4DBF) ||
  (0x4E00 ≤ n && n ≤ 0x9FFF) ||
  (0xA000 ≤ n && n ≤ 0xA4CF) ||
  (0xAC00 ≤ n && n ≤ 0xD7A3) ||
  (0xF900 ≤ n && n ≤ 0xFAFF) ||
  (0xFE30 ≤ n && n ≤ 0xFE4F) ||
  (0xFF00 ≤ n && n ≤ 0xFF60) ||
  (0xFFE0 ≤ n && n ≤ 0xFFE6) ||
  (0x1F300 ≤ n && n ≤ 0x1F64F) ||
  (0x1F900 ≤ n && n ≤ 0x1FAFF) ||
  (0x20000 ≤ n && n ≤ 0x3FFFD)

/-- Zero-width characters of the modelled `wcwidth` table: combining mark
blocks, zero-width spaces/joiners, variation selectors and the BOM. -/
def isZeroWidthChar (c : Char) : Bool :=
  let n := c.toNat
  (0x0300 ≤ n && n ≤ 0x036F) || (0x1AB0 ≤ n && n ≤ 0x1AFF) ||
  (0x1DC0 ≤ n && n ≤ 0x1DFF) || (0x200B ≤ n && n ≤ 0x200F) ||
  (0x20D0 ≤ n && n ≤ 0x20FF) || (0xFE00 ≤ n && n ≤ 0xFE0F) ||
  (0xFE20 ≤ n && n ≤ 0xFE2F) || (n == 0xFEFF)

/-- Model of `wcwidth.wcwidth`: the column width of a single character, or
`-1` for a non-printable (control) character. -/
def wcwidth (c : Char) : Int :=
  let n := c.toNat
  if n == 0 then 0
  else if n < 0x20 || (0x7F ≤ n && n < 0xA0) then -1
  else if isZeroWidthChar c then 0
  else if isWideChar c then 2
  else 1

/-- Model of `wcwidth.wcswidth`: `-1` when the string contains a
non-printable character, otherwise the sum of the character widths. -/
def wcswidth (s : PyStr) : Int :=
  if s.any (fun c => wcwidth c == -1) then -1 else (s.map wcwidth).sum

/-- `HAS_WCWIDTH` (tui_box_generator.py:27-33): in the modelled environment
the `wcwidth` library imports successfully. -/
def HAS_WCWIDTH : Bool := true

/-- `TUIBox.get_visual_width` (tui_box_generator.py:94-115): strip ANSI
escape codes, then measure with `wcswidth`, falling back to the character
count of the stripped text when `wcswidth` reports a non-printable
character. -/
def get_visual_width (text : PyStr) : Int :=
  let clean := ansiStrip text
  if HAS_WCWIDTH then
    let width := wcswidth clean
    if 0 ≤ width then width else (clean.length : Int)
  else (clean.length : Int)

/-- The local `get_width` helper of `validate_box`
(tui_box_generator.py:234-239): like `get_visual_width`, but WITHOUT the
ANSI-stripping step. -/
def get_width (text : PyStr) : Int :=
  if HAS_WCWIDTH then
    let width := wcswidth text
    if 0 ≤ width then width else (text.length : Int)
  else (text.length : Int)

/-- The configuration fields of the Python `TUIBox` class (the constructor
arguments of `TUIBox.__init__`, tui_box_generator.py:39-61, with their
Python default values).  The spec's data model restricts all ten fields to
non-negative integers, so they are modelled as `Nat`. -/
structure TUIBox where
  content_width : Nat := 70
  padding_left : Nat := 2
  padding_right : Nat := 2
  padding_top : Nat := 0
  padding_bottom : Nat := 0
  border_width : Nat := 1
  margin_left : Nat := 0
  margin_right : Nat := 0
  margin_top : Nat := 0
  margin_bottom : Nat := 0

/-- `TUIBox.calculate_dimensions` (tui_box_generator.py:63-83):
`(h_frame, v_frame)`. -/
def calculate_dimensions (box : TUIBox) : Nat × Nat :=
  (box.margin_left + box.border_width + box.padding_left + box.padding_right
      + box.border_width + box.margin_right,
   box.margin_top + box.border_width + box.padding_top + box.padding_bottom
      + box.border_width + box.margin_bottom)

/-- `TUIBox.get_total_width` (tui_box_generator.py:85-88). -/
def get_total_width (box : TUIBox) : Nat :=
  box.content_width + (calculate_dimensions box).1

/-- `TUIBox.get_interior_width` (tui_box_generator.py:90-92). -/
def get_interior_width (box : TUIBox) : Nat :=
  box.padding_left + box.content_width + box.padding_right

/-- Python `" " * n` for a `Nat` count. -/
def spaces (n : Nat) : PyStr := List.replicate n ' '

/-- Python string repetition `c * n` with an `Int` count: a non-positive
count yields the empty string. -/
def pyRep (n : Int) (c : Char) : PyStr := List.replicate n.toNat c

/-- The alignment step of `TUIBox._render_content_line`
(tui_box_generator.py:177-188): compute the slack `content_padding` and
distribute it as spaces around the content.  Python `//` is floor
division, `Int.fdiv`; any string other than `"center"` and `"right"`
selects left alignment (the `else` branch). -/
def align_content (box : TUIBox) (content : PyStr) (alignment : PyStr) : PyStr :=
  let visual := get_visual_width content
  let content_padding : Int := (box.content_width : Int) - visual
  if alignment = "center".toList then
    let left_pad := Int.fdiv content_padding 2
    let right_pad := content_padding - left_pad
    pyRep left_pad ' ' ++ content ++ pyRep right_pad ' '
  else if alignment = "right".toList then
    pyRep content_padding ' ' ++ content
  else
    content ++ pyRep content_padding ' '

/-- `TUIBox._render_content_line` (tui_box_generator.py:175-197). -/
def render_content_line (box : TUIBox) (content : PyStr) (alignment : PyStr) : PyStr :=
  let aligned := align_content box content alignment
  let margin := spaces box.margin_left
  let padding_left := spaces box.padding_left
  let padding_right := spaces box.padding_right
  if 0 < box.border_width then
    margin ++ ['│'] ++ padding_left ++ aligned ++ padding_right ++ ['│']
  else
    margin ++ padding_left ++ aligned ++ padding_right

/-- `TUIBox._render_empty_line` (tui_box_generator.py:165-173). -/
def render_empty_line (box : TUIBox) : PyStr :=
  let interior_width := get_interior_width box
  let margin := spaces box.margin_left
  if 0 < box.border_width then
    margin ++ ['│'] ++ spaces interior_width ++ ['│']
  else
    spaces (box.margin_left + interior_width + box.margin_right)

/-- The top border row of `TUIBox.render` (tui_box_generator.py:136-139):
the left margin, one corner glyph, `─` times the interior width, one corner
glyph. -/
def top_border (box : TUIBox) : PyStr :=
  spaces box.margin_left ++ ['┌']
    ++ List.replicate (get_interior_width box) '─' ++ ['┐']

/-- The bottom border row of `TUIBox.render` (tui_box_generator.py:154-157). -/
def bottom_border (box : TUIBox) : PyStr :=
  spaces box.margin_left ++ ['└']
    ++ List.replicate (get_interior_width box) '─' ++ ['┘']

/-- `TUIBox.render` (tui_box_generator.py:117-163): margin-top and
margin-bottom rows are empty strings (`result.append("")`); border rows are
emitted only when `border_width > 0`. -/
def render (box : TUIBox) (lines : List PyStr) (alignment : PyStr) : List PyStr :=
  List.replicate box.margin_top ([] : PyStr)
  ++ (if 0 < box.border_width then [top_border box] else [])
  ++ List.replicate box.padding_top (render_empty_line box)
  ++ lines.map (fun l => render_content_line box l alignment)
  ++ List.replicate box.padding_bottom (render_empty_line box)
  ++ (if 0 < box.border_width then [bottom_border box] else [])
  ++ List.replicate box.margin_bottom ([] : PyStr)

/-- The validation loop of `validate_box` (tui_box_generator.py:245-252):
walk the lines with their `enumerate` index, collect an
(index, expected, actual) record for every line whose `get_width`
mismatches the expected width (the program prints each record as line
number `i+1` together with the expected and actual widths) and conjoin
`all_valid` over all lines. -/
def validate_loop (expected : Int) : Nat → List PyStr → Bool × List (Nat × Int × Int)
  | _, [] => (true, [])
  | i, l :: rest =>
    let actual := get_width l
    let r := validate_loop expected (i + 1) rest
    if actual ≠ expected then (false, (i, expected, actual) :: r.2) else r

/-- `validate_box` (tui_box_generator.py:218-257): an empty input is an
explicit failure ("no lines to validate"); otherwise the expected width
defaults to the `get_width` of the first line and every line is checked
against it. -/
def validate_box (lines : List PyStr) (expected_width : Option Int) :
    Bool × List (Nat × Int × Int) :=
  match lines with
  | [] => (false, [])
  | first :: _ =>
    let expected := match expected_width with
      | some w => w
      | none => get_width first
    validate_loop expected 0 lines

/-! Basic facts about the ANSI-stripping scanner. -/

theorem matchSGR_cons (c : Char) (rest : PyStr) :
    matchSGR (c :: rest) =
      if c = '[' ∧ (rest.dropWhile isParamChar).head? = some 'm' then
        some (rest.dropWhile isParamChar).tail
      else none := rfl

theorem matchSGR_length : ∀ {cs tail : PyStr}, matchSGR cs = some tail →
    tail.length < cs.length := by
  intro cs tail h
  cases cs with
  | nil => simp [matchSGR] at h
  | cons c rest =>
    rw [matchSGR_cons] at h
    by_cases hcond : c = '[' ∧ (rest.dropWhile isParamChar).head? = some 'm'
    · rw [if_pos hcond] at h
      obtain rfl : (rest.dropWhile isParamChar).tail = tail := Option.some.inj h
      have hne : rest.dropWhile isParamChar ≠ [] := by
        intro hnil
        rw [hnil] at hcond
        exact absurd hcond.2 (by simp)
      have h1 : (rest.dropWhile isParamChar).tail.length
          = (rest.dropWhile isParamChar).length - 1 := List.length_tail _
      have h2 : (rest.dropWhile isParamChar).length ≤ rest.length :=
        (List.dropWhile_sublist isParamChar).length_le
      have h3 : 0 < (rest.dropWhile isParamChar).length :=
        List.length_pos.mpr hne
      simp only [List.length_cons]
      omega
    · rw [if_neg hcond] at h
      exact absurd h (by simp)

theorem ansiStripGo_eq : ∀ (n fuel : Nat) (s : PyStr), fuel ≤ n → s.length ≤ fuel →
    ansiStripGo fuel s = ansiStripGo s.length s := by
  intro n
  induction n with
  | zero =>
    intro fuel s hf hs
    obtain rfl : fuel = 0 := Nat.le_zero.mp hf
    obtain rfl : s = [] := List.length_eq_zero.mp (Nat.le_zero.mp hs)
    rfl
  | succ n ih =>
    intro fuel s hf hs
    cases s with
    | nil => cases fuel <;> rfl
    | cons c cs =>
      cases fuel with
      | zero => simp at hs
      | succ f =>
        have hcs : cs.length ≤ f := by simpa using hs
        simp only [List.length_cons, ansiStripGo]
        by_cases hc : c = ESC
        · rw [if_pos hc, if_pos hc]
          cases hm : matchSGR cs with
          | some tail =>
            have hlt := matchSGR_length hm
            show ansiStripGo f tail = ansiStripGo cs.length tail
            rw [ih f tail (by omega) (by omega),
                ih cs.length tail (by omega) (by omega)]
          | none =>
            show c :: ansiStripGo f cs = c :: ansiStripGo cs.length cs
            rw [ih f cs (by omega) hcs]
        · rw [if_neg hc, if_neg hc, ih f cs (by omega) hcs]

theorem ansiStrip_nil : ansiStrip [] = [] := rfl

theorem ansiStrip_cons_of_ne {c : Char} (cs : PyStr) (hc : c ≠ ESC) :
    ansiStrip (c :: cs) = c :: ansiStrip cs := by
  show ansiStripGo (cs.length + 1) (c :: cs) = c :: ansiStripGo cs.length cs
  simp [ansiStripGo, hc]

theorem ansiStrip_cons_esc_some {cs tail : PyStr} (hm : matchSGR cs = some tail) :
    ansiStrip (ESC :: cs) = ansiStrip tail := by
  show ansiStripGo (cs.length + 1) (ESC :: cs) = ansiStripGo tail.length tail
  have h1 : ansiStripGo (cs.length + 1) (ESC :: cs) = ansiStripGo cs.length tail := by
    simp [ansiStripGo, hm]
  rw [h1]
  exact ansiStripGo_eq cs.length cs.length tail le_rfl (le_of_lt (matchSGR_length hm))

theorem ansiStrip_cons_esc_none {cs : PyStr} (hm : matchSGR cs = none) :
    ansiStrip (ESC :: cs) = ESC :: ansiStrip cs := by
  show ansiStripGo (cs.length + 1) (ESC :: cs) = ESC :: ansiStripGo cs.length cs
  simp [ansiStripGo, hm]

theorem ansiStrip_append_left {p : PyStr} (x : PyStr) (hp : ∀ c ∈ p, c ≠ ESC) :
    ansiStrip (p ++ x) = p ++ ansiStrip x := by
  induction p with
  | nil => simp
  | cons c cs ih =>
    have hc : c ≠ ESC := hp c (by simp)
    rw [List.cons_append, ansiStrip_cons_of_ne _ hc,
        ih (fun d hd => hp d (by simp [hd])), List.cons_append]

theorem ansiStrip_of_escFree {s : PyStr} (hs : ∀ c ∈ s, c ≠ ESC) : ansiStrip s = s := by
  have h := ansiStrip_append_left (p := s) [] hs
  rw [List.append_nil, ansiStrip_nil, List.append_nil] at h
  exact h

/-- A suffix that the scanner can never absorb into an escape sequence that
began to its left: it contains no `ESC`, and its first character is not a
parameter character, not `m` and not `[`. -/
def safeSuffix (s : PyStr) : Prop :=
  (∀ c ∈ s, c ≠ ESC) ∧
  ∀ c, s.head? = some c → isParamChar c = false ∧ c ≠ 'm' ∧ c ≠ '['

theorem dropWhile_safe {s : PyStr} (hs : safeSuffix s) :
    s.dropWhile isParamChar = s := by
  cases s with
  | nil => rfl
  | cons c t =>
    have h := (hs.2 c rfl).1
    simp [List.dropWhile_cons, h]

theorem matchSGR_safe {s : PyStr} (hs : safeSuffix s) : matchSGR s = none := by
  cases s with
  | nil => rfl
  | cons c t =>
    have h := (hs.2 c rfl).2.2
    rw [matchSGR_cons, if_neg]
    intro hcond
    exact h hcond.1

theorem matchSGR_append_none {cs s : PyStr} (hs : safeSuffix s)
    (h : matchSGR cs = none) : matchSGR (cs ++ s) = none := by
  cases cs with
  | nil => simpa using matchSGR_safe hs
  | cons c rest =>
    rw [matchSGR_cons] at h
    rw [List.cons_append, matchSGR_cons, List.dropWhile_append]
    by_cases hc : c = '['
    · cases hd : rest.dropWhile isParamChar with
      | nil =>
        simp only [hd, List.isEmpty_nil, if_true, dropWhile_safe hs]
        rw [if_neg]
        intro hcond
        cases s with
        | nil => exact absurd hcond.2 (by simp)
        | cons c' t =>
          have hm' := (hs.2 c' rfl).2.1
          rw [List.head?_cons] at hcond
          obtain rfl : c' = 'm' := Option.some.inj hcond.2
          simp [isParamChar] at hm'
      | cons m t =>
        have hm2 : m ≠ 'm' := by
          intro hm
          rw [hd, hm] at h
          simp [hc] at h
        simp only [hd, List.isEmpty_cons, Bool.false_eq_true, if_false]
        rw [if_neg]
        intro hcond
        rw [List.cons_append, List.head?_cons] at hcond
        exact hm2 (Option.some.inj hcond.2)
    · rw [if_neg]
      intro hcond
      exact hc hcond.1

theorem matchSGR_append_some {cs s tail : PyStr} (_hs : safeSuffix s)
    (h : matchSGR cs = some tail) : matchSGR (cs ++ s) = some (tail ++ s) := by
  cases cs with
  | nil => simp [matchSGR] at h
  | cons c rest =>
    rw [matchSGR_cons] at h
    by_cases hcond : c = '[' ∧ (rest.dropWhile isParamChar).head? = some 'm'
    · rw [if_pos hcond] at h
      obtain rfl : (rest.dropWhile isParamChar).tail = tail := Option.some.inj h
      obtain ⟨m, t, hd⟩ : ∃ m t, rest.dropWhile isParamChar = m :: t := by
        cases hdd : rest.dropWhile isParamChar with
        | nil => rw [hdd] at hcond; exact absurd hcond.2 (by simp)
        | cons m t => exact ⟨m, t, rfl⟩
      obtain rfl : m = 'm' := by
        rw [hd, List.head?_cons] at hcond
        exact Option.some.inj hcond.2
      rw [List.cons_append, matchSGR_cons, List.dropWhile_append, hd]
      simp only [List.isEmpty_cons, Bool.false_eq_true, if_false]
      rw [if_pos ⟨hcond.1, by simp⟩]
      simp
    · rw [if_neg hcond] at h
      exact absurd h (by simp)

theorem ansiStrip_append_aux (s : PyStr) (hs : safeSuffix s) :
    ∀ (n : Nat) (x : PyStr), x.length ≤ n → ansiStrip (x ++ s) = ansiStrip x ++ s := by
  intro n
  induction n with
  | zero =>
    intro x hx
    obtain rfl : x = [] := List.length_eq_zero.mp (Nat.le_zero.mp hx)
    simpa using ansiStrip_of_escFree hs.1
  | succ n ih =>
    intro x hx
    cases x with
    | nil => simpa using ansiStrip_of_escFree hs.1
    | cons c cs =>
      have hcs : cs.length ≤ n := by simpa using hx
      by_cases hc : c = ESC
      · subst hc
        cases hm : matchSGR cs with
        | some tail =>
          rw [List.cons_append, ansiStrip_cons_esc_some (matchSGR_append_some hs hm),
              ansiStrip_cons_esc_some hm]
          exact ih tail (by have := matchSGR_length hm; omega)
        | none =>
          rw [List.cons_append, ansiStrip_cons_esc_none (matchSGR_append_none hs hm),
              ansiStrip_cons_esc_none hm, ih cs hcs, List.cons_append]
      · rw [List.cons_append, ansiStrip_cons_of_ne _ hc, ansiStrip_cons_of_ne _ hc,
            ih cs hcs, List.cons_append]

theorem ansiStrip_append_right (x s : PyStr) (hs : safeSuffix s) :
    ansiStrip (x ++ s) = ansiStrip x ++ s :=
  ansiStrip_append_aux s hs x.length x le_rfl

/-! Facts about the modelled width measurement. -/

theorem wcwidth_cases (c : Char) : wcwidth c = -1 ∨ 0 ≤ wcwidth c := by
  simp only [wcwidth]
  split_ifs <;> omega

theorem wcswidth_eq_sum {s : PyStr} (h : ∀ c ∈ s, wcwidth c ≠ -1) :
    wcswidth s = (s.map wcwidth).sum := by
  unfold wcswidth
  rw [if_neg]
  simp only [List.any_eq_true, beq_iff_eq, not_exists]
  intro c
  by_cases hc : c ∈ s
  · simp [h c hc]
  · simp [hc]

theorem wcswidth_nonneg_of {s : PyStr} (h : ∀ c ∈ s, wcwidth c ≠ -1) :
    0 ≤ wcswidth s := by
  rw [wcswidth_eq_sum h]
  apply List.sum_nonneg
  intro x hx
  obtain ⟨c, hc, rfl⟩ := List.mem_map.mp hx
  rcases wcwidth_cases c with h1 | h1
  · exact absurd h1 (h c hc)
  · exact h1

theorem wcswidth_neg {s : PyStr} (h : ∃ c ∈ s, wcwidth c = -1) :
    wcswidth s = -1 := by
  unfold wcswidth
  rw [if_pos]
  simp only [List.any_eq_true, beq_iff_eq]
  exact h

theorem get_width_eq_of_nonneg {s : PyStr} (h : 0 ≤ wcswidth s) :
    get_width s = wcswidth s := by
  unfold get_width HAS_WCWIDTH
  rw [if_pos rfl, if_pos h]

theorem get_width_eq_of_neg {s : PyStr} (h : wcswidth s < 0) :
    get_width s = (s.length : Int) := by
  unfold get_width HAS_WCWIDTH
  rw [if_pos rfl, if_neg (by omega)]

theorem get_visual_width_eq (s : PyStr) :
    get_visual_width s = get_width (ansiStrip s) := rfl

theorem sum_map_wcwidth_ones {s : PyStr} (h : ∀ c ∈ s, wcwidth c = 1) :
    (s.map wcwidth).sum = (s.length : Int) := by
  induction s with
  | nil => simp
  | cons c t ih =>
    simp only [List.map_cons, List.sum_cons, h c (by simp), List.length_cons]
    rw [ih (fun d hd => h d (by simp [hd]))]
    push_cast
    ring

theorem get_width_of_ones {s : PyStr} (h : ∀ c ∈ s, wcwidth c = 1) :
    get_width s = (s.length : Int) := by
  have hne : ∀ c ∈ s, wcwidth c ≠ -1 := fun c hc => by rw [h c hc]; omega
  rw [get_width_eq_of_nonneg (wcswidth_nonneg_of hne), wcswidth_eq_sum hne,
      sum_map_wcwidth_ones h]

theorem get_width_wrap {pre suf : PyStr} (x : PyStr)
    (hpre : ∀ c ∈ pre, wcwidth c = 1) (hsuf : ∀ c ∈ suf, wcwidth c = 1) :
    get_width (pre ++ x ++ suf)
      = (pre.length : Int) + get_width x + (suf.length : Int) := by
  have hp1 : ∀ c ∈ pre, wcwidth c ≠ -1 := fun c hc => by rw [hpre c hc]; omega
  have hs1 : ∀ c ∈ suf, wcwidth c ≠ -1 := fun c hc => by rw [hsuf c hc]; omega
  by_cases hx : ∀ c ∈ x, wcwidth c ≠ -1
  · have hall : ∀ c ∈ pre ++ x ++ suf, wcwidth c ≠ -1 := by
      intro c hc
      rcases List.mem_append.mp hc with h1 | h2
      · rcases List.mem_append.mp h1 with ha | hb
        exacts [hp1 c ha, hx c hb]
      · exact hs1 c h2
    rw [get_width_eq_of_nonneg (wcswidth_nonneg_of hall),
        get_width_eq_of_nonneg (wcswidth_nonneg_of hx),
        wcswidth_eq_sum hall, wcswidth_eq_sum hx]
    simp only [List.map_append, List.sum_append]
    rw [sum_map_wcwidth_ones hpre, sum_map_wcwidth_ones hsuf]
  · push_neg at hx
    obtain ⟨c, hcx, hc⟩ := hx
    have hxneg : wcswidth x = -1 := wcswidth_neg ⟨c, hcx, hc⟩
    have hcneg : wcswidth (pre ++ x ++ suf) = -1 :=
      wcswidth_neg ⟨c, by simp [hcx], hc⟩
    rw [get_width_eq_of_neg (by omega), get_width_eq_of_neg (by omega)]
    simp only [List.length_append]
    push_cast
    ring

/-- The frame characters appearing left and right of a content line are
spaces and the vertical border glyph. -/
def blankChar (c : Char) : Prop := c = ' ' ∨ c = '│'

theorem blankChar_wcwidth {c : Char} (h : blankChar c) : wcwidth c = 1 := by
  rcases h with rfl | rfl <;> decide

theorem blankChar_ne_esc {c : Char} (h : blankChar c) : c ≠ ESC := by
  rcases h with rfl | rfl <;> decide

theorem safeSuffix_of_blank {s : PyStr} (h : ∀ c ∈ s, blankChar c) :
    safeSuffix s := by
  refine ⟨fun c hc => blankChar_ne_esc (h c hc), ?_⟩
  intro c hc
  cases s with
  | nil => simp at hc
  | cons c0 t =>
    rw [List.head?_cons] at hc
    have hceq : c0 = c := Option.some.inj hc
    subst hceq
    rcases h c0 (by simp) with rfl | rfl <;> exact ⟨by decide, by decide, by decide⟩

theorem get_visual_width_wrap {pre suf : PyStr} (x : PyStr)
    (hpre : ∀ c ∈ pre, blankChar c) (hsuf : ∀ c ∈ suf, blankChar c) :
    get_visual_width (pre ++ x ++ suf)
      = (pre.length : Int) + get_visual_width x + (suf.length : Int) := by
  have hsafe : safeSuffix suf := safeSuffix_of_blank hsuf
  rw [get_visual_width_eq, get_visual_width_eq, List.append_assoc,
      ansiStrip_append_left (x ++ suf) (fun c hc => blankChar_ne_esc (hpre c hc)),
      ansiStrip_append_right x suf hsafe, ← List.append_assoc]
  exact get_width_wrap (ansiStrip x) (fun c hc => blankChar_wcwidth (hpre c hc))
    (fun c hc => blankChar_wcwidth (hsuf c hc))

theorem get_visual_width_of_ones {s : PyStr} (h : ∀ c ∈ s, wcwidth c = 1) :
    get_visual_width s = (s.length : Int) := by
  have hesc : ∀ c ∈ s, c ≠ ESC := by
    intro c hc heq
    have h1 := h c hc
    rw [heq] at h1
    exact absurd h1 (by decide)
  rw [get_visual_width_eq, ansiStrip_of_escFree hesc, get_width_of_ones h]

theorem get_visual_width_nonneg (s : PyStr) : 0 ≤ get_visual_width s := by
  rw [get_visual_width_eq]
  rcases le_or_lt 0 (wcswidth (ansiStrip s)) with h | h
  · rw [get_width_eq_of_nonneg h]; exact h
  · rw [get_width_eq_of_neg h]; positivity

/-! Structure of rendered rows. -/

theorem mem_spaces {c : Char} {n : Nat} (h : c ∈ spaces n) : c = ' ' :=
  List.eq_of_mem_replicate h

theorem length_spaces (n : Nat) : (spaces n).length = n := List.length_replicate n ' '

theorem align_content_decomp (box : TUIBox) (content : PyStr) (alignment : PyStr) :
    ∃ a b : Nat,
      a + b = ((box.content_width : Int) - get_visual_width content).toNat ∧
      align_content box content alignment = spaces a ++ content ++ spaces b := by
  simp only [align_content]
  by_cases hcen : alignment = "center".toList
  · rw [if_pos hcen]
    set pd : Int := (box.content_width : Int) - get_visual_width content with hpd
    refine ⟨(Int.fdiv pd 2).toNat, (pd - Int.fdiv pd 2).toNat, ?_, rfl⟩
    rw [Int.fdiv_eq_ediv pd (by omega)]
    omega
  · rw [if_neg hcen]
    by_cases hr : alignment = "right".toList
    · rw [if_pos hr]
      refine ⟨((box.content_width : Int) - get_visual_width content).toNat, 0, by omega, ?_⟩
      show pyRep _ ' ' ++ content = _
      simp [spaces, pyRep]
    · rw [if_neg hr]
      refine ⟨0, ((box.content_width : Int) - get_visual_width content).toNat, by omega, ?_⟩
      show content ++ pyRep _ ' ' = _
      simp [spaces, pyRep]

theorem render_content_line_eq (box : TUIBox) (content : PyStr) (alignment : PyStr) :
    ∃ a b : Nat,
      a + b = ((box.content_width : Int) - get_visual_width content).toNat ∧
      render_content_line box content alignment =
        (spaces box.margin_left
            ++ (if 0 < box.border_width then ['│'] else [])
            ++ spaces box.padding_left ++ spaces a)
          ++ content
          ++ (spaces b ++ spaces box.padding_right
            ++ (if 0 < box.border_width then ['│'] else [])) := by
  obtain ⟨a, b, hab, hal⟩ := align_content_decomp box content alignment
  refine ⟨a, b, hab, ?_⟩
  simp only [render_content_line]
  rw [hal]
  by_cases hb : 0 < box.border_width
  · simp only [if_pos hb]
    simp [List.append_assoc]
  · simp only [if_neg hb]
    simp [List.append_assoc]

theorem render_content_line_width (box : TUIBox) (content : PyStr) (alignment : PyStr) :
    get_visual_width (render_content_line box content alignment)
      = (box.margin_left : Int) + (if 0 < box.border_width then 2 else 0)
        + (box.padding_left : Int) + (box.padding_right : Int)
        + ((((box.content_width : Int) - get_visual_width content).toNat : Int))
        + get_visual_width content := by
  obtain ⟨a, b, hab, heq⟩ := render_content_line_eq box content alignment
  rw [heq]
  rw [get_visual_width_wrap content ?hpre ?hsuf]
  case hpre =>
    intro c hc
    simp only [List.mem_append] at hc
    rcases hc with ((h1 | h2) | h3) | h4
    · exact Or.inl (mem_spaces h1)
    · split at h2
      · rw [List.mem_singleton] at h2; exact Or.inr h2
      · simp at h2
    · exact Or.inl (mem_spaces h3)
    · exact Or.inl (mem_spaces h4)
  case hsuf =>
    intro c hc
    simp only [List.mem_append] at hc
    rcases hc with (h1 | h2) | h3
    · exact Or.inl (mem_spaces h1)
    · exact Or.inl (mem_spaces h2)
    · split at h3
      · rw [List.mem_singleton] at h3; exact Or.inr h3
      · simp at h3
  simp only [List.length_append, length_spaces]
  split_ifs with hb <;> simp <;> omega

theorem render_content_line_raw_width (box : TUIBox) (content : PyStr)
    (alignment : PyStr) (hstrip : ansiStrip content = content) :
    get_width (render_content_line box content alignment)
      = (box.margin_left : Int) + (if 0 < box.border_width then 2 else 0)
        + (box.padding_left : Int) + (box.padding_right : Int)
        + ((((box.content_width : Int) - get_visual_width content).toNat : Int))
        + get_visual_width content := by
  have hgw : get_width content = get_visual_width content := by
    rw [get_visual_width_eq, hstrip]
  obtain ⟨a, b, hab, heq⟩ := render_content_line_eq box content alignment
  rw [heq]
  rw [get_width_wrap content ?hpre ?hsuf]
  case hpre =>
    intro c hc
    simp only [List.mem_append] at hc
    rcases hc with ((h1 | h2) | h3) | h4
    · rw [mem_spaces h1]; decide
    · split at h2
      · rw [List.mem_singleton] at h2; rw [h2]; decide
      · simp at h2
    · rw [mem_spaces h3]; decide
    · rw [mem_spaces h4]; decide
  case hsuf =>
    intro c hc
    simp only [List.mem_append] at hc
    rcases hc with (h1 | h2) | h3
    · rw [mem_spaces h1]; decide
    · rw [mem_spaces h2]; decide
    · split at h3
      · rw [List.mem_singleton] at h3; rw [h3]; decide
      · simp at h3
  rw [hgw]
  simp only [List.length_append, length_spaces]
  split_ifs with hb <;> simp <;> omega

theorem render_empty_line_chars (box : TUIBox) :
    ∀ c ∈ render_empty_line box, wcwidth c = 1 := by
  intro c hc
  simp only [render_empty_line] at hc
  split at hc
  · simp only [List.mem_append] at hc
    rcases hc with ((h1 | h2) | h3) | h4
    · rw [mem_spaces h1]; decide
    · rw [List.mem_singleton] at h2; rw [h2]; decide
    · rw [mem_spaces h3]; decide
    · rw [List.mem_singleton] at h4; rw [h4]; decide
  · rw [mem_spaces hc]; decide

theorem render_empty_line_length (box : TUIBox) :
    (render_empty_line box).length =
      if 0 < box.border_width then
        box.margin_left + 2 + get_interior_width box
      else box.margin_left + get_interior_width box + box.margin_right := by
  simp only [render_empty_line]
  split_ifs with hb
  · simp [length_spaces]
    omega
  · simp [length_spaces]

theorem top_border_chars (box : TUIBox) :
    ∀ c ∈ top_border box, wcwidth c = 1 := by
  intro c hc
  simp only [top_border, List.mem_append] at hc
  rcases hc with ((h1 | h2) | h3) | h4
  · rw [mem_spaces h1]; decide
  · rw [List.mem_singleton] at h2; rw [h2]; decide
  · rw [List.eq_of_mem_replicate h3]; decide
  · rw [List.mem_singleton] at h4; rw [h4]; decide

theorem bottom_border_chars (box : TUIBox) :
    ∀ c ∈ bottom_border box, wcwidth c = 1 := by
  intro c hc
  simp only [bottom_border, List.mem_append] at hc
  rcases hc with ((h1 | h2) | h3) | h4
  · rw [mem_spaces h1]; decide
  · rw [List.mem_singleton] at h2; rw [h2]; decide
  · rw [List.eq_of_mem_replicate h3]; decide
  · rw [List.mem_singleton] at h4; rw [h4]; decide

theorem top_border_length (box : TUIBox) :
    (top_border box).length = box.margin_left + 2 + get_interior_width box := by
  simp [top_border, length_spaces]
  omega

theorem bottom_border_length (box : TUIBox) :
    (bottom_border box).length = box.margin_left + 2 + get_interior_width box := by
  simp [bottom_border, length_spaces]
  omega

theorem mem_render {box : TUIBox} {lines : List PyStr} {alignment row : PyStr}
    (h : row ∈ render box lines alignment) :
    (row = [] ∧ 0 < box.margin_top + box.margin_bottom)
    ∨ (0 < box.border_width ∧ (row = top_border box ∨ row = bottom_border box))
    ∨ row = render_empty_line box
    ∨ ∃ l ∈ lines, row = render_content_line box l alignment := by
  unfold render at h
  rcases List.mem_append.mp h with h | h7
  · rcases List.mem_append.mp h with h | h6
    · rcases List.mem_append.mp h with h | h5
      · rcases List.mem_append.mp h with h | h4
        · rcases List.mem_append.mp h with h | h3
          · rcases List.mem_append.mp h with h1 | h2
            · have heq := List.eq_of_mem_replicate h1
              have hpos : box.margin_top ≠ 0 := by
                intro h0
                rw [h0] at h1
                simp at h1
              exact Or.inl ⟨heq, by omega⟩
            · split at h2
              · rw [List.mem_singleton] at h2
                exact Or.inr (Or.inl ⟨by assumption, Or.inl h2⟩)
              · simp at h2
          · exact Or.inr (Or.inr (Or.inl (List.eq_of_mem_replicate h3)))
        · obtain ⟨l, hl, hrow⟩ := List.mem_map.mp h4
          exact Or.inr (Or.inr (Or.inr ⟨l, hl, hrow.symm⟩))
      · exact Or.inr (Or.inr (Or.inl (List.eq_of_mem_replicate h5)))
    · split at h6
      · rw [List.mem_singleton] at h6
        exact Or.inr (Or.inl ⟨by assumption, Or.inr h6⟩)
      · simp at h6
  · have heq := List.eq_of_mem_replicate h7
    have hpos : box.margin_bottom ≠ 0 := by
      intro h0
      rw [h0] at h7
      simp at h7
    exact Or.inl ⟨heq, by omega⟩

/-! Facts about the validation loop. -/

theorem validate_loop_true_iff (expected : Int) :
    ∀ (i : Nat) (ls : List PyStr),
      (validate_loop expected i ls).1 = true ↔ ∀ l ∈ ls, get_width l = expected := by
  intro i ls
  induction ls generalizing i with
  | nil => simp [validate_loop]
  | cons l rest ih =>
    simp only [validate_loop]
    by_cases hl : get_width l ≠ expected
    · rw [if_pos hl]
      constructor
      · intro hfalse
        exact absurd hfalse (by simp)
      · intro hall
        exact absurd (hall l (by simp)) hl
    · rw [if_neg hl]
      rw [not_not] at hl
      rw [ih (i + 1)]
      constructor
      · intro hall c hc
        rcases List.mem_cons.mp hc with rfl | hc
        · exact hl
        · exact hall c hc
      · intro hall c hc
        exact hall c (by simp [hc])

theorem validate_loop_mem (expected : Int) :
    ∀ (i j : Nat) (ls : List PyStr) (hj : j < ls.length),
      get_width (ls.get ⟨j, hj⟩) ≠ expected →
      (i + j, expected, get_width (ls.get ⟨j, hj⟩)) ∈ (validate_loop expected i ls).2 := by
  intro i j ls
  induction ls generalizing i j with
  | nil => intro hj; simp at hj
  | cons l rest ih =>
    intro hj hne
    simp only [validate_loop]
    cases j with
    | zero =>
      simp only [List.get] at hne ⊢
      rw [if_pos hne]
      simp
    | succ j' =>
      have hj' : j' < rest.length := by simpa using hj
      have hmem := ih (i + 1) j' hj' (by simpa using hne)
      have harith : i + 1 + j' = i + (j' + 1) := by omega
      rw [harith] at hmem
      simp only [List.get] at hne hmem ⊢
      by_cases hl : get_width l ≠ expected
      · rw [if_pos hl]
        simp only [List.mem_cons]
        exact Or.inr hmem
      · rw [if_neg hl]
        exact hmem

/-- `validate_box`'s expected width (tui_box_generator.py:242-243): the
supplied value, or the `get_width` of the first line when absent. -/
def expected_of (first : PyStr) (e : Option Int) : Int :=
  match e with
  | some w => w
  | none => get_width first

theorem validate_box_nil (e : Option Int) : validate_box [] e = (false, []) := rfl

theorem validate_box_cons (first : PyStr) (rest : List PyStr) (e : Option Int) :
    validate_box (first :: rest) e =
      validate_loop (expected_of first e) 0 (first :: rest) := rfl

/-! Remaining shared helpers. -/

theorem get_total_width_cast (box : TUIBox) :
    (get_total_width box : Int) = (box.content_width : Int) + box.margin_left
      + box.border_width + box.padding_left + box.padding_right
      + box.border_width + box.margin_right := by
  simp only [get_total_width, calculate_dimensions]
  push_cast
  ring

theorem render_ne_nil (box : TUIBox) (lines : List PyStr) (alignment : PyStr)
    (h : 0 < box.border_width ∨ lines ≠ []) :
    render box lines alignment ≠ [] := by
  intro hnil
  have hlen := congrArg List.length hnil
  simp only [render, List.length_append, List.length_replicate, List.length_map,
    List.length_nil] at hlen
  have hlp : 0 < lines.length ∨ 0 < box.border_width := by
    rcases h with hb | hl
    · exact Or.inr hb
    · exact Or.inl (List.length_pos.mpr hl)
  split_ifs at hlen with hb
  · simp at hlen
  · rcases hlp with h1 | h2
    · omega
    · exact absurd h2 hb

/-! Concrete configurations used by counterexamples and witnesses. -/

/-- Config with one top margin row (all other margins zero, no border). -/
def boxMarginTop : TUIBox :=
  { content_width := 1, padding_left := 0, padding_right := 0, border_width := 0,
    margin_top := 1 }

/-- Bordered config with one top margin row. -/
def boxMarginTopBorder : TUIBox :=
  { content_width := 1, padding_left := 0, padding_right := 0, border_width := 1,
    margin_top := 1 }

/-- Bordered config with a nonzero right margin. -/
def boxMarginRight : TUIBox :=
  { content_width := 1, padding_left := 0, padding_right := 0, border_width := 1,
    margin_right := 1 }

/-- Small bordered config with symmetric padding. -/
def boxSmall : TUIBox :=
  { content_width := 2, padding_left := 1, padding_right := 1, border_width := 1 }

/-- Minimal bordered config. -/
def boxMini : TUIBox :=
  { content_width := 1, padding_left := 0, padding_right := 0, border_width := 1 }

/-- Config with center-alignment slack 3 for a one-column content line. -/
def boxSlack3 : TUIBox :=
  { content_width := 4, padding_left := 0, padding_right := 0, border_width := 1 }

/-- The ANSI-styled line `"\x1b[31mHi\x1b[0m"` of the spec's examples. -/
def ansiHi : PyStr := "\x1b[31mHi\x1b[0m".toList

/-! Claims. -/

/-- C1 (counterexample): the claim as stated is false.  For the config with
`margin_top = 1`, `content_width = 1` and no border, the single content line
`"a"` fits (`visual width 1 ≤ 1`), yet `render` emits the empty margin row
`""` whose visual width 0 differs from `total_width = 1`. -/
theorem C1_counterexample :
    (∀ l ∈ [['a']], get_visual_width l ≤ (boxMarginTop.content_width : Int)) ∧
    ¬ (∀ row ∈ render boxMarginTop [['a']] ("left".toList),
        get_visual_width row = (get_total_width boxMarginTop : Int)) := by
  constructor
  · decide
  · intro hall
    have h := hall [] (by decide)
    exact absurd h (by decide)

/-- C1 (amended): provided the top, bottom and right margins are zero and
`border_width ≤ 1`, every row emitted by `render` — border rows, empty
padding rows and content rows — has visual width exactly `total_width`,
whenever every content line's visual width is at most `content_width`. -/
theorem C1_amended_uniform_width (box : TUIBox) (lines : List PyStr)
    (alignment : PyStr)
    (hmt : box.margin_top = 0) (hmb : box.margin_bottom = 0)
    (hmr : box.margin_right = 0) (hbw : box.border_width ≤ 1)
    (hfit : ∀ l ∈ lines, get_visual_width l ≤ (box.content_width : Int)) :
    ∀ row ∈ render box lines alignment,
      get_visual_width row = (get_total_width box : Int) := by
  intro row hrow
  have htot := get_total_width_cast box
  rcases mem_render hrow with ⟨hnil, hpos⟩ | ⟨hb, hband⟩ | hempty | ⟨l, hl, hrc⟩
  · omega
  · have hb1 : box.border_width = 1 := by omega
    rcases hband with rfl | rfl
    · rw [get_visual_width_of_ones (top_border_chars box), top_border_length, htot]
      simp only [get_interior_width]
      push_cast
      omega
    · rw [get_visual_width_of_ones (bottom_border_chars box), bottom_border_length, htot]
      simp only [get_interior_width]
      push_cast
      omega
  · subst hempty
    rw [get_visual_width_of_ones (render_empty_line_chars box),
        render_empty_line_length, htot]
    by_cases hb : 0 < box.border_width
    · have hb1 : box.border_width = 1 := by omega
      rw [if_pos hb]
      simp only [get_interior_width]
      push_cast
      omega
    · rw [if_neg hb]
      simp only [get_interior_width]
      push_cast
      omega
  · subst hrc
    rw [render_content_line_width, htot]
    have hfl := hfit l hl
    have hnn := get_visual_width_nonneg l
    have htn : (((box.content_width : Int) - get_visual_width l).toNat : Int)
        = (box.content_width : Int) - get_visual_width l := by omega
    rw [htn]
    by_cases hb : 0 < box.border_width
    · have hb1 : box.border_width = 1 := by omega
      rw [if_pos hb]
      omega
    · rw [if_neg hb]
      omega

/-- Witness for the amended C1: a concrete content row of the bordered
`boxSmall` config has visual width `total_width = 6`. -/
theorem C1_amended_uniform_width_witness :
    get_visual_width (render_content_line boxSmall ("Hi".toList) ("left".toList))
      = (get_total_width boxSmall : Int) :=
  C1_amended_uniform_width boxSmall [("Hi".toList)] ("left".toList)
    rfl rfl rfl (by decide) (by decide)
    (render_content_line boxSmall ("Hi".toList) ("left".toList)) (by decide)

/-- C2 (counterexample): the round-trip law fails as stated.  For the
bordered config with `margin_top = 1` the content line `"a"` fits, but the
empty margin row makes the expected width (taken from the first rendered
row) 0 while the remaining rows have width 3, so validation fails. -/
theorem C2_counterexample :
    (∀ l ∈ [['a']], get_visual_width l ≤ (boxMarginTopBorder.content_width : Int)) ∧
    (validate_box (render boxMarginTopBorder [['a']] ("left".toList)) none).1
      = false := by
  constructor
  · decide
  · decide

/-- C2 (amended): the round-trip law holds provided the top, bottom and
right margins are zero, no content line is changed by ANSI-stripping,
every content line fits, and the rendered output is non-empty (a border is
present or the line list is non-empty). -/
theorem C2_amended_roundtrip (box : TUIBox) (lines : List PyStr) (alignment : PyStr)
    (hmt : box.margin_top = 0) (hmb : box.margin_bottom = 0)
    (hmr : box.margin_right = 0)
    (hstrip : ∀ l ∈ lines, ansiStrip l = l)
    (hfit : ∀ l ∈ lines, get_visual_width l ≤ (box.content_width : Int))
    (hne : 0 < box.border_width ∨ lines ≠ []) :
    (validate_box (render box lines alignment) none).1 = true := by
  have hrow : ∀ row ∈ render box lines alignment, get_width row =
      (box.margin_left : Int) + (if 0 < box.border_width then 2 else 0)
        + box.padding_left + box.content_width + box.padding_right := by
    intro row hrow
    rcases mem_render hrow with ⟨hnil, hpos⟩ | ⟨hb, hband⟩ | hempty | ⟨l, hl, hrc⟩
    · omega
    · rcases hband with rfl | rfl
      · rw [get_width_of_ones (top_border_chars box), top_border_length, if_pos hb]
        simp only [get_interior_width]
        push_cast
        omega
      · rw [get_width_of_ones (bottom_border_chars box), bottom_border_length,
            if_pos hb]
        simp only [get_interior_width]
        push_cast
        omega
    · subst hempty
      rw [get_width_of_ones (render_empty_line_chars box), render_empty_line_length]
      by_cases hb : 0 < box.border_width
      · rw [if_pos hb, if_pos hb]
        simp only [get_interior_width]
        push_cast
        omega
      · rw [if_neg hb, if_neg hb]
        simp only [get_interior_width]
        push_cast
        omega
    · subst hrc
      rw [render_content_line_raw_width box l alignment (hstrip l hl)]
      have hfl := hfit l hl
      have hnn := get_visual_width_nonneg l
      have htn : (((box.content_width : Int) - get_visual_width l).toNat : Int)
          = (box.content_width : Int) - get_visual_width l := by omega
      rw [htn]
      by_cases hb : 0 < box.border_width
      · rw [if_pos hb]
        omega
      · rw [if_neg hb]
        omega
  obtain ⟨r0, rest, hr⟩ :=
    List.exists_cons_of_ne_nil (render_ne_nil box lines alignment hne)
  rw [hr, validate_box_cons, validate_loop_true_iff]
  intro l hl
  rw [show expected_of r0 none = get_width r0 from rfl,
      hrow r0 (by rw [hr]; simp), hrow l (by rw [hr]; exact hl)]

/-- Witness for the amended C2: validating the rendering of `"a"` in the
minimal bordered config succeeds. -/
theorem C2_amended_roundtrip_witness :
    (validate_box (render boxMini [['a']] ("left".toList)) none).1 = true :=
  C2_amended_roundtrip boxMini [['a']] ("left".toList) rfl rfl rfl
    (by decide) (by decide) (Or.inl (by decide))

/-- C3: for every config (all fields non-negative by the `Nat` model), the
computed total width equals `content_width + 2*border_width + padding_left +
padding_right + margin_left + margin_right`. -/
theorem C3_total_width_formula (box : TUIBox) :
    get_total_width box = box.content_width + 2 * box.border_width
      + box.padding_left + box.padding_right
      + box.margin_left + box.margin_right := by
  simp only [get_total_width, calculate_dimensions]
  omega

/-- C4 (counterexample): the claim is false as stated because `validate_box`
measures lines with its local raw `get_width` (no ANSI stripping), not with
the measurer `get_visual_width`.  The single line `"\x1b[31mHi\x1b[0m"` has
measurer width 2, equal to the supplied expected width, and the input is
non-empty, yet validation fails (the raw width is 11). -/
theorem C4_counterexample :
    ¬ (((validate_box [ansiHi] (some 2)).1 = true) ↔
        ([ansiHi] ≠ ([] : List PyStr) ∧
          ∀ l ∈ [ansiHi], get_visual_width l = 2)) := by
  decide

/-- C4 (amended): with the validator's own raw width function `get_width`
in place of the measurer, validation of a non-empty list is valid iff every
line's raw width equals the expected width (defaulting to the raw width of
the first line), an empty list is invalid, and every mismatching line is
recorded with its index, the expected width and its actual width. -/
theorem C4_amended_validate (e : Option Int) :
    (validate_box [] e).1 = false ∧
    ∀ (first : PyStr) (rest : List PyStr),
      ((validate_box (first :: rest) e).1 = true ↔
        ∀ l ∈ first :: rest, get_width l = expected_of first e) ∧
      ∀ (j : Nat) (hj : j < (first :: rest).length),
        get_width ((first :: rest).get ⟨j, hj⟩) ≠ expected_of first e →
        (j, expected_of first e, get_width ((first :: rest).get ⟨j, hj⟩))
          ∈ (validate_box (first :: rest) e).2 := by
  refine ⟨rfl, ?_⟩
  intro first rest
  constructor
  · rw [validate_box_cons, validate_loop_true_iff]
  · intro j hj hne
    rw [validate_box_cons]
    have h := validate_loop_mem (expected_of first e) 0 j (first :: rest) hj hne
    simpa using h

/-- Witness for the amended C4: the empty list fails; a singleton whose raw
width matches the explicit expected width validates. -/
theorem C4_amended_validate_witness :
    (validate_box [] (some 3)).1 = false ∧
    (validate_box [['a', 'b', 'c']] (some 3)).1 = true :=
  ⟨(C4_amended_validate (some 3)).1,
   ((C4_amended_validate (some 3)).2 ['a', 'b', 'c'] []).1.mpr (by decide)⟩

/-- C5: for every content line whose slack (`content_width` minus the
line's visual width) is non-negative, center alignment inserts
`slack / 2` spaces before the content and `slack - slack / 2` spaces after
it, and for odd slack the right padding exceeds the left by exactly one. -/
theorem C5_center_split (box : TUIBox) (content : PyStr) (slack : Nat)
    (hslack : (slack : Int) = (box.content_width : Int) - get_visual_width content) :
    align_content box content ("center".toList)
      = spaces (slack / 2) ++ content ++ spaces (slack - slack / 2) ∧
    (slack % 2 = 1 → slack - slack / 2 = slack / 2 + 1) := by
  constructor
  · simp only [align_content, if_pos rfl]
    rw [Int.fdiv_eq_ediv _ (by omega)]
    have hl : (((box.content_width : Int) - get_visual_width content) / 2).toNat
        = slack / 2 := by omega
    have hr : (((box.content_width : Int) - get_visual_width content)
        - ((box.content_width : Int) - get_visual_width content) / 2).toNat
        = slack - slack / 2 := by omega
    show spaces _ ++ content ++ spaces _ = _
    rw [hl, hr]
  · intro hodd
    omega

/-- Witness for C5: slack 3 splits as 1 space left, 2 spaces right. -/
theorem C5_center_split_witness :
    align_content boxSlack3 ['a'] ("center".toList)
      = spaces (3 / 2) ++ ['a'] ++ spaces (3 - 3 / 2) ∧
    (3 % 2 = 1 → 3 - 3 / 2 = 3 / 2 + 1) :=
  C5_center_split boxSlack3 ['a'] 3 (by decide)

/-- The SGR escape sequence `ESC [ ps m` for parameter characters `ps`. -/
def sgrSeq (ps : PyStr) : PyStr := ESC :: '[' :: (ps ++ ['m'])

/-- C6: the measurer is invariant under ANSI SGR escape sequences — an
`ESC [ params m` sequence inserted after an ESC-free prefix contributes
zero width — and in particular `visual_width("\x1b[31mHi\x1b[0m") =
visual_width("Hi") = 2`. -/
theorem C6_ansi_invariance :
    (∀ (a ps b : PyStr), (∀ c ∈ a, c ≠ ESC) → (∀ c ∈ ps, isParamChar c = true) →
        get_visual_width (a ++ sgrSeq ps ++ b) = get_visual_width (a ++ b)) ∧
    get_visual_width ansiHi = 2 ∧ get_visual_width ("Hi".toList) = 2 := by
  refine ⟨?_, by decide, by decide⟩
  intro a ps b ha hps
  have hm : matchSGR ('[' :: (ps ++ ['m']) ++ b) = some b := by
    rw [show ('[' :: (ps ++ ['m']) ++ b : PyStr) = '[' :: ((ps ++ ['m']) ++ b)
          from rfl,
        matchSGR_cons]
    have hd : ((ps ++ ['m']) ++ b).dropWhile isParamChar = 'm' :: b := by
      rw [List.append_assoc, List.dropWhile_append_of_pos hps]
      show ('m' :: b).dropWhile isParamChar = 'm' :: b
      rw [List.dropWhile_cons, if_neg (by decide)]
    rw [hd]
    simp
  have hstripped : ansiStrip (sgrSeq ps ++ b) = ansiStrip b := by
    show ansiStrip (ESC :: ('[' :: (ps ++ ['m']) ++ b)) = ansiStrip b
    exact ansiStrip_cons_esc_some hm
  rw [get_visual_width_eq, get_visual_width_eq, List.append_assoc,
      ansiStrip_append_left (sgrSeq ps ++ b) ha, hstripped,
      ansiStrip_append_left b ha]

/-- Witness for C6: inserting `ESC[31m` between `H` and `i` leaves the
measured width unchanged. -/
theorem C6_ansi_invariance_witness :
    get_visual_width (['H'] ++ sgrSeq ['3', '1'] ++ ['i'])
      = get_visual_width (['H'] ++ ['i']) :=
  C6_ansi_invariance.1 ['H'] ['3', '1'] ['i'] (by decide) (by decide)

/-- C7 (counterexample): the width part of the claim is false as stated.
With a nonzero right margin the overflowing line `"ab"` renders as `│ab│`
of visual width 4, but `total_width + overflow = 4 + 1 = 5`. -/
theorem C7_counterexample :
    (boxMarginRight.content_width : Int) < get_visual_width ['a', 'b'] ∧
    get_visual_width (render_content_line boxMarginRight ['a', 'b'] ("left".toList))
      ≠ (get_total_width boxMarginRight : Int)
        + (get_visual_width ['a', 'b'] - (boxMarginRight.content_width : Int)) := by
  decide

/-- C7 (amended): when a content line overflows (`visual width >
content_width`) and the config has `margin_right = 0` and
`border_width ≤ 1`, the content passes through unmodified — the row is the
content wrapped in exactly the frame characters with no alignment spaces —
and the row's visual width exceeds `total_width` by exactly the overflow. -/
theorem C7_amended_overflow (box : TUIBox) (content : PyStr) (alignment : PyStr)
    (hmr : box.margin_right = 0) (hbw : box.border_width ≤ 1)
    (hover : (box.content_width : Int) < get_visual_width content) :
    (∃ pre post : PyStr,
        render_content_line box content alignment = pre ++ content ++ post ∧
        (∀ c ∈ pre, blankChar c) ∧ (∀ c ∈ post, blankChar c) ∧
        pre.length + post.length
          = box.margin_left + (if 0 < box.border_width then 2 else 0)
            + box.padding_left + box.padding_right) ∧
    get_visual_width (render_content_line box content alignment)
      = (get_total_width box : Int)
        + (get_visual_width content - (box.content_width : Int)) := by
  have htoNat : ((box.content_width : Int) - get_visual_width content).toNat = 0 := by
    omega
  constructor
  · obtain ⟨a, b, hab, heq⟩ := render_content_line_eq box content alignment
    rw [htoNat] at hab
    refine ⟨spaces box.margin_left ++ (if 0 < box.border_width then ['│'] else [])
        ++ spaces box.padding_left ++ spaces a,
      spaces b ++ spaces box.padding_right
        ++ (if 0 < box.border_width then ['│'] else []), heq, ?_, ?_, ?_⟩
    · intro c hc
      simp only [List.mem_append] at hc
      rcases hc with ((h1 | h2) | h3) | h4
      · exact Or.inl (mem_spaces h1)
      · split at h2
        · rw [List.mem_singleton] at h2
          exact Or.inr h2
        · simp at h2
      · exact Or.inl (mem_spaces h3)
      · exact Or.inl (mem_spaces h4)
    · intro c hc
      simp only [List.mem_append] at hc
      rcases hc with (h1 | h2) | h3
      · exact Or.inl (mem_spaces h1)
      · exact Or.inl (mem_spaces h2)
      · split at h3
        · rw [List.mem_singleton] at h3
          exact Or.inr h3
        · simp at h3
    · simp only [List.length_append, length_spaces]
      split_ifs with hb <;> simp <;> omega
  · rw [render_content_line_width, htoNat, get_total_width_cast box]
    by_cases hb : 0 < box.border_width
    · have hb1 : box.border_width = 1 := by omega
      rw [if_pos hb]
      push_cast
      omega
    · rw [if_neg hb]
      push_cast
      omega

/-- Witness for the amended C7: the overflowing row `│ab│` of the minimal
bordered config has width `total_width + 1`. -/
theorem C7_amended_overflow_witness :
    get_visual_width (render_content_line boxMini ['a', 'b'] ("left".toList))
      = (get_total_width boxMini : Int)
        + (get_visual_width ['a', 'b'] - (boxMini.content_width : Int)) :=
  (C7_amended_overflow boxMini ['a', 'b'] ("left".toList) rfl (by decide)
    (by decide)).2

/-- C8: every rendered content row contains the input line verbatim as a
contiguous substring — the surrounding characters are only frame spaces
and border glyphs (no escapes are rewritten) — and the amount of
surrounding padding is computed from the ANSI-stripped visual width. -/
theorem C8_verbatim_content (box : TUIBox) (content : PyStr) (alignment : PyStr) :
    ∃ pre post : PyStr,
      render_content_line box content alignment = pre ++ content ++ post ∧
      (∀ c ∈ pre, blankChar c) ∧ (∀ c ∈ post, blankChar c) ∧
      pre.length + post.length
        = box.margin_left + (if 0 < box.border_width then 2 else 0)
          + box.padding_left + box.padding_right
          + ((box.content_width : Int) - get_visual_width content).toNat := by
  obtain ⟨a, b, hab, heq⟩ := render_content_line_eq box content alignment
  refine ⟨spaces box.margin_left ++ (if 0 < box.border_width then ['│'] else [])
      ++ spaces box.padding_left ++ spaces a,
    spaces b ++ spaces box.padding_right
      ++ (if 0 < box.border_width then ['│'] else []), heq, ?_, ?_, ?_⟩
  · intro c hc
    simp only [List.mem_append] at hc
    rcases hc with ((h1 | h2) | h3) | h4
    · exact Or.inl (mem_spaces h1)
    · split at h2
      · rw [List.mem_singleton] at h2
        exact Or.inr h2
      · simp at h2
    · exact Or.inl (mem_spaces h3)
    · exact Or.inl (mem_spaces h4)
  · intro c hc
    simp only [List.mem_append] at hc
    rcases hc with (h1 | h2) | h3
    · exact Or.inl (mem_spaces h1)
    · exact Or.inl (mem_spaces h2)
    · split at h3
      · rw [List.mem_singleton] at h3
        exact Or.inr h3
      · simp at h3
  · simp only [List.length_append, length_spaces]
    split_ifs with hb <;> simp <;> omega

/-- C9: the measurer is total with a non-negative result, and when the
stripped text contains a character the width algorithm classifies as
non-printable (control), it returns the character count of the stripped
text as the defined fallback. -/
theorem C9_measurer_total (text : PyStr) :
    0 ≤ get_visual_width text ∧
    ((∃ c ∈ ansiStrip text, wcwidth c = -1) →
      get_visual_width text = ((ansiStrip text).length : Int)) := by
  refine ⟨get_visual_width_nonneg text, ?_⟩
  intro hctl
  rw [get_visual_width_eq, get_width_eq_of_neg (by rw [wcswidth_neg hctl]; omega)]

/-- Witness for C9: the lone control character BEL falls back to the
character count 1. -/
theorem C9_measurer_total_witness :
    get_visual_width ['\x07'] = ((ansiStrip ['\x07']).length : Int) :=
  (C9_measurer_total ['\x07']).2 (by decide)

/-- C10: `render` returns exactly `margin_top + padding_top + |lines| +
padding_bottom + margin_bottom` rows plus 2 border rows when
`border_width > 0` and 0 otherwise — in particular any positive
`border_width` still yields one top and one bottom border row. -/
theorem C10_row_count (box : TUIBox) (lines : List PyStr) (alignment : PyStr) :
    (render box lines alignment).length =
      box.margin_top + box.padding_top + lines.length + box.padding_bottom
        + box.margin_bottom + (if 0 < box.border_width then 2 else 0) := by
  simp only [render, List.length_append, List.length_replicate, List.length_map]
  split_ifs with hb
  · simp
    omega
  · simp

end TUIBoxGen
